import Mathlib

/-!
Verification of the installation/provisioning orchestrator of the
`gridatek/ecommerce-starter` repository.

The relevant JavaScript sources are `scripts/install.js`,
`scripts/install-backend.js`, `scripts/check-prerequisites.js` and the
prerequisite checker in `src/unnamed/part_000`.  JavaScript strings are
modelled as lists of UTF-16 code units (`List Nat`); every string that
actually occurs in the scripts is ASCII, so code units, code points and
characters coincide on the modelled domain.  External effects (shell
invocations, the file system, stdin) are modelled as explicit inputs: a
shell is a function from command line to outcome, a spawned process is
its observed `Except` outcome, and a prompt's answer is the line the
user would type.
-/

set_option linter.unusedVariables false

/-- JavaScript strings, as lists of UTF-16 code units. -/
abbrev JStr := List Nat

/-- Embeds a Lean string literal as a `JStr` (all literals used here are ASCII). -/
def str (s : String) : JStr := s.data.map Char.toNat

/-! ## InteractionPrompter: `question` (install-backend.js:37-50, install.js:45-57) -/

/-- Observable outcome of one `question(query)` call: the resolved answer and
whether a readline interface over stdin was opened at all. -/
structure PromptOutcome where
  answer : JStr
  readStdin : Bool
  deriving DecidableEq

/-- The `question` function of `scripts/install-backend.js` lines 37-50.  When
`isCI` it resolves with `''` without creating a readline interface; otherwise
it opens an interface, asks once, and resolves with the typed line
(`stdinLine`). -/
def question (isCI : Bool) (query stdinLine : JStr) : PromptOutcome :=
  if isCI then { answer := [], readStdin := false }
  else { answer := stdinLine, readStdin := true }

/-- The textually identical `question` function of `scripts/install.js`
lines 45-57. -/
def questionInstall (isCI : Bool) (query stdinLine : JStr) : PromptOutcome :=
  if isCI then { answer := [], readStdin := false }
  else { answer := stdinLine, readStdin := true }

/-! ## Case-insensitive yes answers (install-backend.js:82,130,315,361 and install.js:145) -/

/-- JavaScript `String.prototype.toLowerCase` on one code unit.  The scripts
only ever compare against the ASCII strings `'y'`/`'yes'`; on ASCII the
JavaScript mapping is exactly this shift of the range `A`-`Z`. -/
def charToLower (c : Nat) : Nat := if 65 ≤ c ∧ c ≤ 90 then c + 32 else c

/-- JavaScript `answer.toLowerCase()`. -/
def jsToLower (s : JStr) : JStr := s.map charToLower

/-- The affirmative test `answer.toLowerCase() === 'y' || answer.toLowerCase() === 'yes'`
used at `scripts/install-backend.js:82` (and, negated, at
`scripts/install-backend.js:130` and `scripts/install.js:145`). -/
def isAffirmativeAnswer (answer : JStr) : Bool :=
  jsToLower answer == str "y" || jsToLower answer == str "yes"

/-- The decline test `answer.toLowerCase() !== 'y' && answer.toLowerCase() !== 'yes'`
guarding the PostgreSQL presence confirmation at
`scripts/install-backend.js:130` and `scripts/install.js:145`. -/
def postgresPromptDeclines (answer : JStr) : Bool :=
  jsToLower answer != str "y" && jsToLower answer != str "yes"

/-- All strings accepted by `isAffirmativeAnswer`: the case variants of
`y` and `yes`. -/
def affirmativeAnswers : List JStr :=
  [str "y", str "Y",
   str "yes", str "yeS", str "yEs", str "yES",
   str "Yes", str "YeS", str "YEs", str "YES"]

/-! ## ReinstallGuard: `checkExistingBackend` (install-backend.js:70-93) and `main` (437-486) -/

/-- The `checkExistingBackend` function of `scripts/install-backend.js`
lines 70-93, as a function of the observable environment: whether the
`backend` directory exists, whether the run is in CI mode, and the answer the
user gives to the reinstall confirmation.  Result: (proceed, directory was
removed). -/
def checkExistingBackend (backendExists isCI : Bool) (answer : JStr) : Bool × Bool :=
  if backendExists then
    if isCI then (true, true)
    else if isAffirmativeAnswer answer then (true, true)
    else (false, false)
  else (true, false)

/-- The control flow of `main` in `scripts/install-backend.js` lines 437-486,
up to the outcome of the remaining steps (installMedusa through
printNextSteps), which is abstracted as `rest`.  `checkPrerequisites` is
abstracted as its boolean result `prereqOk`.  Result: (process exit code,
whether the backend directory was removed). -/
def backendMain (prereqOk backendExists isCI : Bool) (answer : JStr)
    (rest : Except JStr Unit) : Nat × Bool :=
  if prereqOk = false then (1, false)
  else
    let g := checkExistingBackend backendExists isCI answer
    if g.1 = false then (0, g.2)
    else
      match rest with
      | Except.ok _ => (0, g.2)
      | Except.error _ => (1, g.2)

/-! ## PrerequisiteChecker: `commandExists` (install.js:60-67, install-backend.js:96-103)
and `checkCommand` (part_000:17-29) -/

/-- Why an `execSync` invocation can fail: binary missing, non-zero exit
status, or a timeout.  The scripts never inspect the cause. -/
inductive InvocationError where
  | notFound
  | nonZeroExit (code : Nat)
  | timedOut
  deriving DecidableEq

/-- Outcome of one `execSync` call: the captured stdout on success, or the
failure cause. -/
abbrev ShellOutcome := Except InvocationError JStr

/-- The `commandExists` function of `scripts/install.js` lines 60-67 (the copy
in `scripts/install-backend.js` lines 96-103 is textually identical): runs
`<command> --version` through the shell and maps success to `true` and any
thrown error to `false`. -/
def commandExists (shell : JStr → ShellOutcome) (command : JStr) : Bool :=
  match shell (command ++ str " --version") with
  | Except.ok _ => true
  | Except.error _ => false

/-- JavaScript whitespace test for the code units `String.prototype.trim`
removes, restricted to the ASCII range that version strings contain. -/
def isJsSpace (c : Nat) : Bool :=
  c = 32 || c = 9 || c = 10 || c = 11 || c = 12 || c = 13

/-- JavaScript `s.trim()`. -/
def jsTrim (s : JStr) : JStr :=
  ((s.dropWhile isJsSpace).reverse.dropWhile isJsSpace).reverse

/-- JavaScript `s.split('\n')[0]`: everything before the first newline. -/
def firstLine (s : JStr) : JStr := s.takeWhile (fun c => c != 10)

/-- The `checkCommand` function of `src/unnamed/part_000` lines 17-29: runs
`<command> --version`, and on success reports installed together with the
first line of the trimmed output as the version label; on any failure it
reports not installed. -/
def checkCommand (shell : JStr → ShellOutcome) (command : JStr) : Bool × Option JStr :=
  match shell (command ++ str " --version") with
  | Except.ok out => (true, some (firstLine (jsTrim out)))
  | Except.error _ => (false, none)

/-! ## Database configuration: `getDatabaseConfig` (install-backend.js:143-171) -/

/-- The `DatabaseConfig` record built by `getDatabaseConfig`. -/
structure DatabaseConfig where
  host : JStr
  port : JStr
  user : JStr
  password : JStr
  name : JStr
  deriving DecidableEq

/-- JavaScript `answer || deflt` for strings: the empty string is falsy. -/
def jsOrDefault (answer deflt : JStr) : JStr := if answer = [] then deflt else answer

/-- The interactive branch of `getDatabaseConfig` in
`scripts/install-backend.js` lines 155-171, as a function of the five prompt
answers.  Note that the `password` call site has no `|| default`. -/
def getDatabaseConfig (hostAns portAns userAns passwordAns nameAns : JStr) : DatabaseConfig :=
  { host := jsOrDefault hostAns (str "localhost")
    port := jsOrDefault portAns (str "5432")
    user := jsOrDefault userAns (str "postgres")
    password := passwordAns
    name := jsOrDefault nameAns (str "medusa-store") }

/-- JavaScript `process.env.X || deflt`: an unset variable (`none`) and an
empty string are both falsy. -/
def jsEnvOr (v : Option JStr) (deflt : JStr) : JStr :=
  match v with
  | none => deflt
  | some s => jsOrDefault s deflt

/-- The CI branch of `getDatabaseConfig` in `scripts/install-backend.js`
lines 145-153. -/
def getDatabaseConfigCI (envHost envPort envUser envPassword envName : Option JStr) :
    DatabaseConfig :=
  { host := jsEnvOr envHost (str "localhost")
    port := jsEnvOr envPort (str "5432")
    user := jsEnvOr envUser (str "postgres")
    password := jsEnvOr envPassword (str "postgres")
    name := jsEnvOr envName (str "medusa_test") }

/-! ## SecretGenerator: `generateSecret` (install-backend.js:53-55) -/

/-- The sixteen lowercase hexadecimal digits used by Node's
`Buffer.toString('hex')`. -/
def hexDigits : JStr := str "0123456789abcdef"

/-- Hex digit of a value (taken mod 16). -/
def hexDigit (n : Nat) : Nat := hexDigits.getD (n % 16) 48

/-- Hex encoding of one byte, high nibble first. -/
def byteToHex (b : Nat) : JStr := [hexDigit (b / 16), hexDigit (b % 16)]

/-- The `generateSecret` function of `scripts/install-backend.js` lines 53-55:
`crypto.randomBytes(length).toString('hex')`.  The entropy source is modelled
by the byte list `randomBytes` that `crypto.randomBytes(length)` returns. -/
def generateSecret (randomBytes : List Nat) : JStr :=
  (randomBytes.map byteToHex).flatten

/-! ## StepPipeline: `main` and the step functions of install.js (lines 157-224, 311-346) -/

/-- The error wrapping used by the catch block of each installation step of
`scripts/install.js`: `Failed to install <label>: <message>` (lines 168, 190,
222). -/
def wrapInstallError (label msg : JStr) : JStr :=
  str "Failed to install " ++ label ++ str ": " ++ msg

/-- The `installRootDependencies` step of `scripts/install.js` lines 157-170:
`npm install` in the workspace root; a failure is rethrown wrapped as
`Failed to install root dependencies: ...`. -/
def installRootDependencies (npmInstall : Except JStr Unit) : Except JStr Unit :=
  match npmInstall with
  | Except.ok _ => Except.ok ()
  | Except.error m => Except.error (wrapInstallError (str "root dependencies") m)

/-- The `installStorefront` step of `scripts/install.js` lines 173-192: if the
storefront directory is missing it throws `Storefront directory missing`
before the try block; otherwise an `npm install` failure is rethrown wrapped
as `Failed to install storefront: ...`. -/
def installStorefront (storefrontDirExists : Bool) (npmInstall : Except JStr Unit) :
    Except JStr Unit :=
  if storefrontDirExists = false then Except.error (str "Storefront directory missing")
  else
    match npmInstall with
    | Except.ok _ => Except.ok ()
    | Except.error m => Except.error (wrapInstallError (str "storefront") m)

/-- The `installBackend` step of `scripts/install.js` lines 195-224: the
spawned `node scripts/install-backend.js` child's failure is rethrown wrapped
as `Failed to install backend: ...`. -/
def installBackend (backendChild : Except JStr Unit) : Except JStr Unit :=
  match backendChild with
  | Except.ok _ => Except.ok ()
  | Except.error m => Except.error (wrapInstallError (str "backend") m)

/-- The sequential await-in-try driver of `main` in `scripts/install.js`
lines 311-346 over an ordered list of labelled step outcomes: each step runs
only if all earlier ones succeeded, and the first failure becomes the final
outcome delivered to the top-level catch.  Returns the labels of the steps
that actually ran, in order, together with the final outcome. -/
def runSteps : List (JStr × Except JStr Unit) → List JStr × Except JStr Unit
  | [] => ([], Except.ok ())
  | (label, outcome) :: rest =>
    match outcome with
    | Except.ok _ =>
      let r := runSteps rest
      (label :: r.1, r.2)
    | Except.error m => ([label], Except.error m)

/-- The three installation steps of `main` in `scripts/install.js` (lines
329-335), in declared order, as a `runSteps` pipeline over the observable
outcomes of the external invocations. -/
def installMain (npmRoot : Except JStr Unit) (storefrontDirExists : Bool)
    (npmStorefront backendChild : Except JStr Unit) : List JStr × Except JStr Unit :=
  runSteps
    [(str "root dependencies", installRootDependencies npmRoot),
     (str "storefront", installStorefront storefrontDirExists npmStorefront),
     (str "backend", installBackend backendChild)]

/-! ## Windows PostgreSQL fallback: `checkPostgres` (part_000:31-79) -/

/-- JavaScript `haystack.includes(pat)`. -/
def hasInfix (pat : JStr) : JStr → Bool
  | [] => pat.isEmpty
  | c :: cs => pat.isPrefixOf (c :: cs) || hasInfix pat cs

/-- Observable environment of `checkPostgres` in `src/unnamed/part_000`: the
platform, the outcome of `sc query postgresql*`, the existence of the two
probed installation directories (`C:\Program Files\PostgreSQL` and
`C:\PostgreSQL`, in that order), and the outcome of `psql --version`. -/
structure PgEnv where
  isWindows : Bool
  scQuery : Except Unit JStr
  programFilesPgExists : Bool
  pgRootExists : Bool
  psqlVersion : Except Unit JStr

/-- The final `psql --version` strategy of `checkPostgres` (part_000:68-78):
success means installed, any thrown error means not detected. -/
def psqlVersionCheck (env : PgEnv) : Bool :=
  match env.psqlVersion with
  | Except.ok _ => true
  | Except.error _ => false

/-- The directory-probing loop of `checkPostgres` (part_000:52-65) followed by
the generic strategy: report installed if either well-known directory exists,
else run `psql --version`. -/
def windowsPathProbe (env : PgEnv) : Bool :=
  if env.programFilesPgExists then true
  else if env.pgRootExists then true
  else psqlVersionCheck env

/-- The `checkPostgres` function of `src/unnamed/part_000` lines 31-79.  On
Windows it first runs `sc query postgresql*`; if that succeeds and its output
contains `RUNNING` or contains `postgresql`, it reports installed at once;
otherwise (including when `sc query` throws) it probes the two well-known
directories and finally falls back to `psql --version`.  Off Windows it goes
straight to `psql --version`. -/
def checkPostgres (env : PgEnv) : Bool :=
  if env.isWindows then
    match env.scQuery with
    | Except.ok services =>
      if hasInfix (str "RUNNING") services || hasInfix (str "postgresql") services then true
      else windowsPathProbe env
    | Except.error _ => windowsPathProbe env
  else psqlVersionCheck env

/-- The service-manager condition of `checkPostgres` (part_000:39-47) in
isolation: the query succeeded and its output contains `RUNNING` or contains
`postgresql`. -/
def scMatches (env : PgEnv) : Bool :=
  match env.scQuery with
  | Except.ok services => hasInfix (str "RUNNING") services || hasInfix (str "postgresql") services
  | Except.error _ => false

/-- Concrete environment: a `postgresql-x64-16` service exists but is stopped,
neither well-known directory exists, and `psql --version` fails. -/
def stoppedServiceEnv : PgEnv :=
  { isWindows := true
    scQuery := Except.ok (str "SERVICE_NAME: postgresql-x64-16  STATE : 1  STOPPED")
    programFilesPgExists := false
    pgRootExists := false
    psqlVersion := Except.error () }

/-! ## TemplateRenderer: `processTemplate` (install-backend.js:58-67)

The code unit 123 is the opening brace and 125 the closing brace. -/

/-- The placeholder token of a key: two opening braces, the key, two closing
braces — the literal text `new RegExp('\x7b\x7b' + key + '\x7d\x7d', 'g')`
matches for the word-character keys the scripts use. -/
def keyToken (key : JStr) : JStr := 123 :: 123 :: (key ++ [125, 125])

/-- JavaScript GetSubstitution for a string replacement argument, for a
regex with no capture groups (the token regexes built here have none):
code unit 36 is the dollar sign, and `$$` (36,36) inserts a dollar, `$&`
(36,38) inserts the matched text, a dollar followed by 96 (backquote)
inserts the part of the subject before the match, `$'` (36,39) the part
after it, and any other dollar — including `$n` digits and `$<`, which do
not refer to an existing capture — passes through literally. -/
def expandDollar (before matched after : JStr) : JStr → JStr
  | [] => []
  | [c] => [c]
  | c :: d :: rest =>
    if c = 36 then
      if d = 36 then 36 :: expandDollar before matched after rest
      else if d = 38 then matched ++ expandDollar before matched after rest
      else if d = 96 then before ++ expandDollar before matched after rest
      else if d = 39 then after ++ expandDollar before matched after rest
      else c :: expandDollar before matched after (d :: rest)
    else c :: expandDollar before matched after (d :: rest)

/-- Fuel-indexed worker for global replacement.  `pre` is the part of the
original subject before the current scan position (needed by the dollar
patterns, which slice the original subject); the fuel only makes the
recursion structural and is always called with at least the text's length. -/
def replaceAllGo (pat repl : JStr) : Nat → JStr → JStr → JStr
  | _, _, [] => []
  | 0, _, s => s
  | fuel + 1, pre, c :: cs =>
    if pat.isPrefixOf (c :: cs) then
      expandDollar pre pat (cs.drop (pat.length - 1)) repl ++
        replaceAllGo pat repl fuel (pre ++ pat) (cs.drop (pat.length - 1))
    else c :: replaceAllGo pat repl fuel (pre ++ [c]) cs

/-- The suffix of a global replacement pass: the subject is `pre ++ cur` and
scanning continues at the start of `cur`. -/
def replaceAllAt (pat repl pre cur : JStr) : JStr :=
  replaceAllGo pat repl cur.length pre cur

/-- JavaScript `content.replace(regex, value)` with a global regex matching
the literal `pat`: scans left to right, replaces each non-overlapping
occurrence with the GetSubstitution expansion of `value`, and does not
rescan the inserted text within the same pass.  (Keys containing regex
metacharacters would denote a non-literal regex and are outside the
modelled domain; the theorems below restrict keys to word characters,
which is all the scripts use.) -/
def replaceAll (pat repl s : JStr) : JStr := replaceAllAt pat repl [] s

/-- The `processTemplate` function of `scripts/install-backend.js` lines
58-67: a fold over `Object.entries(replacements)` in insertion order, each
entry globally replacing its token in the current content. -/
def processTemplate (template : JStr) (replacements : List (JStr × JStr)) : JStr :=
  replacements.foldl (fun content kv => replaceAll (keyToken kv.1) kv.2 content) template

/-- A template decomposed into literal text and placeholder tokens. -/
inductive TemplateChunk where
  | lit (s : JStr)
  | key (k : JStr)
  deriving DecidableEq

/-- The template text a chunk list denotes. -/
def flattenChunks : List TemplateChunk → JStr
  | [] => []
  | TemplateChunk.lit s :: rest => s ++ flattenChunks rest
  | TemplateChunk.key k :: rest => keyToken k ++ flattenChunks rest

/-- First value bound to a key in the replacement map (entries of a
JavaScript object have unique keys). -/
def lookupValue : List (JStr × JStr) → JStr → Option JStr
  | [], _ => none
  | (k1, v) :: rest, k => if k1 = k then some v else lookupValue rest k

/-- Modelled from the spec (§4.4 TemplateRenderer): the simultaneous reading
of rendering — every token whose key is present in the map becomes that
key's value, tokens of absent keys stay literal tokens, map keys that match
no token are unused.  Stated on the chunk decomposition of the template. -/
def substitutedChunks (replacements : List (JStr × JStr)) (ts : List TemplateChunk) :
    List TemplateChunk :=
  ts.map fun ch =>
    match ch with
    | TemplateChunk.lit s => TemplateChunk.lit s
    | TemplateChunk.key k =>
      match lookupValue replacements k with
      | some v => TemplateChunk.lit v
      | none => TemplateChunk.key k

/-- Effect of one replacement pass on one chunk. -/
def substOneChunk (k v : JStr) : TemplateChunk → TemplateChunk
  | TemplateChunk.lit s => TemplateChunk.lit s
  | TemplateChunk.key k2 => if k2 = k then TemplateChunk.lit v else TemplateChunk.key k2

/-- Effect of one replacement pass on a chunk list. -/
def substOne (k v : JStr) (ts : List TemplateChunk) : List TemplateChunk :=
  ts.map (substOneChunk k v)

/-- A word character in the regex sense: an ASCII digit, letter, or the
underscore.  For such keys `new RegExp` builds a regex that matches exactly
the literal token text. -/
def plainKeyChar (c : Nat) : Prop :=
  (48 ≤ c ∧ c ≤ 57) ∨ (65 ≤ c ∧ c ≤ 90) ∨ (97 ≤ c ∧ c ≤ 122) ∨ c = 95

instance : DecidablePred plainKeyChar := fun c =>
  inferInstanceAs
    (Decidable ((48 ≤ c ∧ c ≤ 57) ∨ (65 ≤ c ∧ c ≤ 90) ∨ (97 ≤ c ∧ c ≤ 122) ∨ c = 95))

/-- A key made only of word characters, like the `DB_USER` ... `COOKIE_SECRET`
keys `createEnvFile` passes to `processTemplate`. -/
def plainKey (k : JStr) : Prop := ∀ c ∈ k, plainKeyChar c

instance : DecidablePred plainKey := fun k =>
  inferInstanceAs (Decidable (∀ c ∈ k, plainKeyChar c))

/-- Well-formedness of a chunk: literal text contains no opening brace, and
keys are word-character strings. -/
def chunkOk : TemplateChunk → Prop
  | TemplateChunk.lit s => 123 ∉ s
  | TemplateChunk.key k => plainKey k

instance : DecidablePred chunkOk := fun ch =>
  match ch with
  | TemplateChunk.lit s => inferInstanceAs (Decidable (123 ∉ s))
  | TemplateChunk.key k => inferInstanceAs (Decidable (plainKey k))

/-- Well-formedness of a map entry: the key is a word-character string and
the value contains neither an opening brace (which could form a further
token that later passes substitute again) nor a dollar sign (which the
replacement would expand as a substitution pattern) — see the
counterexamples and the dollar-pattern theorems. -/
def entryOk (kv : JStr × JStr) : Prop := plainKey kv.1 ∧ 123 ∉ kv.2 ∧ 36 ∉ kv.2

instance : DecidablePred entryOk := fun kv =>
  inferInstanceAs (Decidable (plainKey kv.1 ∧ 123 ∉ kv.2 ∧ 36 ∉ kv.2))

/-- One-token template whose key `A` maps to a value that is itself the token
of `B`. -/
def chainTemplate : List TemplateChunk := [TemplateChunk.key (str "A")]

/-- Replacement map sending `A` to the token of `B` and `B` to `x`, in that
entry order. -/
def chainMapAB : List (JStr × JStr) := [(str "A", keyToken (str "B")), (str "B", str "x")]

/-- The same two entries in the opposite order. -/
def chainMapBA : List (JStr × JStr) := [(str "B", str "x"), (str "A", keyToken (str "B"))]

/-- A template exercising repeated tokens, an absent key and literal text. -/
def demoTemplate : List TemplateChunk :=
  [TemplateChunk.lit (str "URL="), TemplateChunk.key (str "DB_USER"),
   TemplateChunk.lit (str ":"), TemplateChunk.key (str "DB_PASSWORD"),
   TemplateChunk.key (str "DB_USER"), TemplateChunk.key (str "MISSING")]

/-- A brace-free replacement map with one unused key. -/
def demoMap : List (JStr × JStr) :=
  [(str "DB_USER", str "alice"), (str "DB_PASSWORD", str "pw"), (str "UNUSED", str "zz")]

/-- The entries of `demoMap`, permuted. -/
def demoMapRev : List (JStr × JStr) :=
  [(str "UNUSED", str "zz"), (str "DB_PASSWORD", str "pw"), (str "DB_USER", str "alice")]

/-- Two-token template over the keys `A` and `B`. -/
def dollarTemplate : List TemplateChunk :=
  [TemplateChunk.key (str "A"), TemplateChunk.key (str "B")]

/-- Map sending `A` to the dollar-quote pattern (36,39), which inserts the
part of the subject after the match, and `B` to the dollar-backquote pattern
(36,96), which inserts the part before the match. -/
def dollarMapAB : List (JStr × JStr) := [(str "A", [36, 39]), (str "B", [36, 96])]

/-- The same two entries in the opposite order. -/
def dollarMapBA : List (JStr × JStr) := [(str "B", [36, 96]), (str "A", [36, 39])]

/-! ### Small helper lemmas -/

theorem jsOrDefault_nil (deflt : JStr) : jsOrDefault [] deflt = deflt := rfl

theorem jsOrDefault_of_ne_nil (answer deflt : JStr) (h : answer ≠ []) :
    jsOrDefault answer deflt = answer := if_neg h

theorem jsOrDefault_ne_nil (answer deflt : JStr) (h : deflt ≠ []) :
    jsOrDefault answer deflt ≠ [] := by
  unfold jsOrDefault
  split
  · exact h
  · assumption

theorem charToLower_eq_lower (t c : Nat) (h1 : 97 ≤ t) (h2 : t ≤ 122) :
    charToLower c = t ↔ c = t ∨ c = t - 32 := by
  unfold charToLower
  split <;> omega

theorem hexDigit_mem (n : Nat) : hexDigit n ∈ hexDigits := by
  have hlen : hexDigits.length = 16 := by decide
  have hlt : n % 16 < hexDigits.length := by
    rw [hlen]; exact Nat.mod_lt n (by norm_num)
  unfold hexDigit
  rw [List.getD_eq_getElem _ _ hlt]
  exact List.getElem_mem hlt

theorem generateSecret_cons (b : Nat) (bs : List Nat) :
    generateSecret (b :: bs) = byteToHex b ++ generateSecret bs := rfl

/-! ## Claim theorems (first group) -/

/-- C8: in CI (automated) mode both `question` implementations resolve with
the empty string for every prompt text and never open the stdin interface. -/
theorem question_ci_no_read (query stdinLine : JStr) :
    question true query stdinLine = { answer := [], readStdin := false } ∧
    questionInstall true query stdinLine = { answer := [], readStdin := false } ∧
    (question true query stdinLine).readStdin = false := ⟨rfl, rfl, rfl⟩

/-- C7: `generateSecret` returns twice as many code units as it consumes
random bytes, and every output code unit is a hexadecimal digit. -/
theorem generateSecret_length_and_alphabet (randomBytes : List Nat) :
    (generateSecret randomBytes).length = 2 * randomBytes.length ∧
    ∀ c ∈ generateSecret randomBytes, c ∈ hexDigits := by
  constructor
  · induction randomBytes with
    | nil => rfl
    | cons b bs ih =>
      rw [generateSecret_cons, List.length_append, ih]
      simp [byteToHex]
      omega
  · intro c hc
    unfold generateSecret at hc
    obtain ⟨s, hs, hcs⟩ := List.mem_flatten.mp hc
    obtain ⟨b, _, rfl⟩ := List.mem_map.mp hs
    simp only [byteToHex, List.mem_cons, List.mem_singleton, List.not_mem_nil, or_false] at hcs
    rcases hcs with rfl | rfl
    · exact hexDigit_mem _
    · exact hexDigit_mem _

/-- C7 witness: the theorem evaluated at the concrete byte list `[0, 255]`. -/
theorem generateSecret_length_and_alphabet_inst :
    (generateSecret [0, 255]).length = 2 * 2 ∧ (102 : Nat) ∈ hexDigits :=
  ⟨(generateSecret_length_and_alphabet [0, 255]).1,
   (generateSecret_length_and_alphabet [0, 255]).2 102 (by decide)⟩

/-! ## Claim theorems (second group) -/

theorem jsToLower_eq_singleton (a : JStr) (t : Nat) (h1 : 97 ≤ t) (h2 : t ≤ 122) :
    jsToLower a = [t] ↔ a = [t] ∨ a = [t - 32] := by
  unfold jsToLower
  rcases a with _ | ⟨c1, rest⟩
  · simp
  · rcases rest with _ | ⟨c2, rest2⟩
    · simp [charToLower_eq_lower t c1 h1 h2]
    · simp

/-- C10: the only answers the reinstall confirmation treats as affirmative are
exactly the case variants of `y` and `yes`; the PostgreSQL presence prompt's
decline test is the exact negation of the same predicate; the empty answer
(pressing Enter) is not affirmative. -/
theorem affirmative_answers_characterization (a : JStr) :
    (isAffirmativeAnswer a = true ↔ a ∈ affirmativeAnswers) ∧
    postgresPromptDeclines a = !(isAffirmativeAnswer a) ∧
    isAffirmativeAnswer [] = false := by
  refine ⟨?_, ?_, rfl⟩
  · constructor
    · intro h
      have h' : jsToLower a = str "y" ∨ jsToLower a = str "yes" := by
        simpa [isAffirmativeAnswer] using h
      have hy : str "y" = [121] := rfl
      have hyes : str "yes" = [121, 101, 115] := rfl
      rcases h' with h1 | h3
      · rw [hy] at h1
        have := (jsToLower_eq_singleton a 121 (by omega) (by omega)).mp h1
        rcases this with rfl | rfl <;> decide
      · rw [hyes] at h3
        unfold jsToLower at h3
        rcases a with _ | ⟨c1, _ | ⟨c2, _ | ⟨c3, _ | ⟨c4, rest⟩⟩⟩⟩ <;> simp at h3
        obtain ⟨hc1, hc2, hc3⟩ := h3
        have e1 := (charToLower_eq_lower 121 c1 (by omega) (by omega)).mp hc1
        have e2 := (charToLower_eq_lower 101 c2 (by omega) (by omega)).mp hc2
        have e3 := (charToLower_eq_lower 115 c3 (by omega) (by omega)).mp hc3
        rcases e1 with rfl | rfl <;> rcases e2 with rfl | rfl <;>
          rcases e3 with rfl | rfl <;> decide
    · intro h
      simp only [affirmativeAnswers, List.mem_cons, List.not_mem_nil, or_false] at h
      rcases h with rfl | rfl | rfl | rfl | rfl | rfl | rfl | rfl | rfl | rfl <;> decide
  · simp only [postgresPromptDeclines, isAffirmativeAnswer, bne, Bool.not_or]

/-- C3: the prerequisite check reports installed exactly when the `--version`
invocation succeeds (with captured output); every failure, whatever its cause,
is reported as not installed, by both `commandExists` and `checkCommand`. -/
theorem commandExists_installed_iff (shell : JStr → ShellOutcome) (command : JStr) :
    (commandExists shell command = true ↔
      ∃ out, shell (command ++ str " --version") = Except.ok out) ∧
    (∀ e, shell (command ++ str " --version") = Except.error e →
      commandExists shell command = false ∧ (checkCommand shell command).1 = false) ∧
    (checkCommand shell command).1 = commandExists shell command := by
  unfold commandExists checkCommand
  rcases h : shell (command ++ str " --version") with out | e <;> simp [h]

/-- C3 witness: a shell whose invocation times out yields not installed. -/
theorem commandExists_installed_iff_inst :
    commandExists (fun _ => Except.error InvocationError.timedOut) (str "psql") = false ∧
    (checkCommand (fun _ => Except.error InvocationError.timedOut) (str "psql")).1 = false :=
  (commandExists_installed_iff (fun _ => Except.error InvocationError.timedOut)
    (str "psql")).2.1 InvocationError.timedOut rfl

/-- C2: with the backend directory present and interactive execution, every
non-affirmative confirmation answer makes `checkExistingBackend` return
proceed=false with no removal, and `main` then exits with code 0. -/
theorem checkExistingBackend_decline_cancels (answer : JStr)
    (hna : isAffirmativeAnswer answer = false) :
    checkExistingBackend true false answer = (false, false) ∧
    ∀ rest, backendMain true true false answer rest = (0, false) := by
  constructor
  · simp [checkExistingBackend, hna]
  · intro rest
    simp [backendMain, checkExistingBackend, hna]

/-- C2 witness: the user answers `n`. -/
theorem checkExistingBackend_decline_cancels_inst :
    checkExistingBackend true false (str "n") = (false, false) ∧
    backendMain true true false (str "n") (Except.ok ()) = (0, false) :=
  ⟨(checkExistingBackend_decline_cancels (str "n") (by decide)).1,
   (checkExistingBackend_decline_cancels (str "n") (by decide)).2 (Except.ok ())⟩

/-- C6 counterexample: with every prompt answered by pressing Enter, the
password field of the resulting configuration is left empty (it has no
default), so it is not the case that no prompted field is left empty; all
other prompted fields do receive their defaults. -/
theorem getDatabaseConfig_empty_password_cex :
    (getDatabaseConfig [] [] [] [] []).password = [] ∧
    (getDatabaseConfig [] [] [] [] []).host = str "localhost" ∧
    (getDatabaseConfig [] [] [] [] []).port = str "5432" ∧
    (getDatabaseConfig [] [] [] [] []).user = str "postgres" ∧
    (getDatabaseConfig [] [] [] [] []).name = str "medusa-store" := by
  decide

/-- C6 amended: every prompted field except the password substitutes its
documented default when the answer is empty (and keeps a non-empty answer
verbatim), so host, port, user and name are never empty; the password is
passed through unchanged, empty or not. -/
theorem getDatabaseConfig_defaults (hostAns portAns userAns passwordAns nameAns : JStr) :
    (getDatabaseConfig hostAns portAns userAns passwordAns nameAns).host ≠ [] ∧
    (getDatabaseConfig hostAns portAns userAns passwordAns nameAns).port ≠ [] ∧
    (getDatabaseConfig hostAns portAns userAns passwordAns nameAns).user ≠ [] ∧
    (getDatabaseConfig hostAns portAns userAns passwordAns nameAns).name ≠ [] ∧
    (getDatabaseConfig hostAns portAns userAns passwordAns nameAns).password = passwordAns ∧
    (hostAns = [] → (getDatabaseConfig hostAns portAns userAns passwordAns nameAns).host = str "localhost") ∧
    (hostAns ≠ [] → (getDatabaseConfig hostAns portAns userAns passwordAns nameAns).host = hostAns) ∧
    (portAns = [] → (getDatabaseConfig hostAns portAns userAns passwordAns nameAns).port = str "5432") ∧
    (portAns ≠ [] → (getDatabaseConfig hostAns portAns userAns passwordAns nameAns).port = portAns) ∧
    (userAns = [] → (getDatabaseConfig hostAns portAns userAns passwordAns nameAns).user = str "postgres") ∧
    (userAns ≠ [] → (getDatabaseConfig hostAns portAns userAns passwordAns nameAns).user = userAns) ∧
    (nameAns = [] → (getDatabaseConfig hostAns portAns userAns passwordAns nameAns).name = str "medusa-store") ∧
    (nameAns ≠ [] → (getDatabaseConfig hostAns portAns userAns passwordAns nameAns).name = nameAns) := by
  refine ⟨jsOrDefault_ne_nil _ _ (by decide), jsOrDefault_ne_nil _ _ (by decide),
    jsOrDefault_ne_nil _ _ (by decide), jsOrDefault_ne_nil _ _ (by decide), rfl,
    ?_, ?_, ?_, ?_, ?_, ?_, ?_, ?_⟩ <;> intro h
  · rw [show (getDatabaseConfig hostAns portAns userAns passwordAns nameAns).host =
      jsOrDefault hostAns (str "localhost") from rfl, h, jsOrDefault_nil]
  · exact jsOrDefault_of_ne_nil _ _ h
  · rw [show (getDatabaseConfig hostAns portAns userAns passwordAns nameAns).port =
      jsOrDefault portAns (str "5432") from rfl, h, jsOrDefault_nil]
  · exact jsOrDefault_of_ne_nil _ _ h
  · rw [show (getDatabaseConfig hostAns portAns userAns passwordAns nameAns).user =
      jsOrDefault userAns (str "postgres") from rfl, h, jsOrDefault_nil]
  · exact jsOrDefault_of_ne_nil _ _ h
  · rw [show (getDatabaseConfig hostAns portAns userAns passwordAns nameAns).name =
      jsOrDefault nameAns (str "medusa-store") from rfl, h, jsOrDefault_nil]
  · exact jsOrDefault_of_ne_nil _ _ h

/-- C6 amended witness: a non-empty host answer is kept, an empty port answer
gets the default, the password is passed through. -/
theorem getDatabaseConfig_defaults_inst :
    (getDatabaseConfig (str "db.example") [] [] (str "pw") []).host = str "db.example" ∧
    (getDatabaseConfig (str "db.example") [] [] (str "pw") []).port = str "5432" ∧
    (getDatabaseConfig (str "db.example") [] [] (str "pw") []).password = str "pw" := by
  obtain ⟨-, -, -, -, hpw, -, hne, hp, -⟩ :=
    getDatabaseConfig_defaults (str "db.example") [] [] (str "pw") []
  exact ⟨hne (by decide), hp rfl, hpw⟩

/-! ## Claim theorems (third group) -/

theorem isPrefixOf_append_right (pat s t : JStr) (h : pat.isPrefixOf s = true) :
    pat.isPrefixOf (s ++ t) = true := by
  induction pat generalizing s with
  | nil => simp [List.isPrefixOf]
  | cons a as ih =>
    cases s with
    | nil => simp [List.isPrefixOf] at h
    | cons b bs =>
      simp only [List.cons_append, List.isPrefixOf, Bool.and_eq_true] at h ⊢
      exact ⟨h.1, ih bs h.2⟩

theorem hasInfix_append_left (pat s t : JStr) (h : hasInfix pat s = true) :
    hasInfix pat (s ++ t) = true := by
  induction s with
  | nil =>
    have hp : pat = [] := by simpa [hasInfix] using h
    subst hp
    cases t <;> simp [hasInfix, List.isPrefixOf]
  | cons c cs ih =>
    simp only [hasInfix, Bool.or_eq_true] at h
    rcases h with h | h
    · simp only [List.cons_append, hasInfix, Bool.or_eq_true]
      exact Or.inl (isPrefixOf_append_right pat (c :: cs) t h)
    · simp only [List.cons_append, hasInfix, Bool.or_eq_true]
      exact Or.inr (ih h)

/-- C1: over any ordered list of pipeline steps, if every step before the
failing one succeeds then `runSteps` executes exactly the steps up to and
including the failing one — nothing after it runs — and the final outcome is
that step's error; a failing storefront step always yields an error message
that mentions the step's label (case-insensitively); in particular, over
`[root dependencies, storefront, backend]` with the storefront step failing,
the backend step never runs, whatever its outcome would have been. -/
theorem runSteps_halts_at_first_failure (pre post : List (JStr × Except JStr Unit))
    (label msg : JStr) (hpre : ∀ p ∈ pre, p.2 = Except.ok ()) :
    runSteps (pre ++ (label, Except.error msg) :: post) =
      (pre.map Prod.fst ++ [label], Except.error msg) ∧
    (∀ storefrontDirExists npmInstall m,
      installStorefront storefrontDirExists npmInstall = Except.error m →
      hasInfix (str "storefront") (jsToLower m) = true) ∧
    (∀ backendChild : Except JStr Unit,
      (runSteps [(str "root dependencies", Except.ok ()),
                 (str "storefront", Except.error msg),
                 (str "backend", backendChild)]).1
        = [str "root dependencies", str "storefront"]) := by
  refine ⟨?_, ?_, ?_⟩
  · induction pre with
    | nil => simp [runSteps]
    | cons p pre ih =>
      obtain ⟨l, o⟩ := p
      have ho : o = Except.ok () := hpre (l, o) (by simp)
      subst ho
      have hrest : ∀ q ∈ pre, q.2 = Except.ok () := fun q hq => hpre q (by simp [hq])
      have hstep : runSteps (((l, Except.ok ()) :: pre) ++ (label, Except.error msg) :: post)
          = (l :: (runSteps (pre ++ (label, Except.error msg) :: post)).1,
             (runSteps (pre ++ (label, Except.error msg) :: post)).2) := rfl
      rw [hstep, ih hrest]
      simp
  · intro storefrontDirExists npmInstall m h
    cases storefrontDirExists with
    | false =>
      have : m = str "Storefront directory missing" := by
        simpa [installStorefront] using h.symm
      subst this
      decide
    | true =>
      cases npmInstall with
      | ok u => simp [installStorefront] at h
      | error m0 =>
        have : m = wrapInstallError (str "storefront") m0 := by
          simpa [installStorefront] using h.symm
        subst this
        unfold wrapInstallError jsToLower
        rw [List.map_append, List.map_append, List.map_append, List.append_assoc]
        exact hasInfix_append_left _ _ _ (by decide)
  · intro backendChild
    rfl

/-- C1 witness: the concrete pipeline `[A ok, B fails, C ok]`. -/
theorem runSteps_halts_at_first_failure_inst :
    runSteps [(str "root dependencies", Except.ok ()),
              (str "storefront", Except.error (str "boom")),
              (str "backend", Except.ok ())] =
      ([str "root dependencies", str "storefront"], Except.error (str "boom")) :=
  (runSteps_halts_at_first_failure [(str "root dependencies", Except.ok ())]
    [(str "backend", Except.ok ())] (str "storefront") (str "boom")
    (by intro p hp; rw [List.mem_singleton] at hp; subst hp; rfl)).1

/-- C5 counterexample: on Windows, a `postgresql` service that exists but is
stopped (its `sc query` output mentions `postgresql` but not `RUNNING`) makes
`checkPostgres` report installed even though no installation directory exists
and `psql --version` fails — contradicting the claim that the
service-manager shortcut fires only when the matched service is running. -/
theorem checkPostgres_stopped_service_cex :
    checkPostgres stoppedServiceEnv = true ∧
    hasInfix (str "RUNNING") (str "SERVICE_NAME: postgresql-x64-16  STATE : 1  STOPPED") = false ∧
    stoppedServiceEnv.programFilesPgExists = false ∧
    stoppedServiceEnv.pgRootExists = false ∧
    psqlVersionCheck stoppedServiceEnv = false := by
  decide

/-- C5 amended: on Windows, `checkPostgres` reports installed without
consulting the directories or the client tool exactly when the service query
succeeds and its output contains `RUNNING` or contains `postgresql` (a
matching service in any state, not only a running one); otherwise it reports
installed when one of the two well-known directories exists; and only when
all of that fails does the result reduce to the generic `psql --version`
check. -/
theorem checkPostgres_windows_fallback_chain (env : PgEnv) (hw : env.isWindows = true) :
    (scMatches env = true → checkPostgres env = true) ∧
    (scMatches env = false → (env.programFilesPgExists || env.pgRootExists) = true →
      checkPostgres env = true) ∧
    (scMatches env = false → env.programFilesPgExists = false → env.pgRootExists = false →
      checkPostgres env = psqlVersionCheck env) := by
  rcases hq : env.scQuery with e | s
  · have hcp : checkPostgres env = windowsPathProbe env := by
      unfold checkPostgres
      rw [if_pos hw, hq]
    have hm0 : scMatches env = false := by
      unfold scMatches
      rw [hq]
    refine ⟨?_, ?_, ?_⟩
    · intro hm
      rw [hm0] at hm
      exact absurd hm (by simp)
    · intro _ hdir
      rw [hcp]
      unfold windowsPathProbe
      rcases hpf : env.programFilesPgExists with _ | _
      · have hroot : env.pgRootExists = true := by
          rw [hpf] at hdir
          simpa using hdir
        simp [hroot]
      · simp
    · intro _ h1 h2
      rw [hcp]
      unfold windowsPathProbe
      simp [h1, h2]
  · have hcp : checkPostgres env =
        (if hasInfix (str "RUNNING") s || hasInfix (str "postgresql") s then true
         else windowsPathProbe env) := by
      unfold checkPostgres
      rw [if_pos hw, hq]
    have hm0 : scMatches env =
        (hasInfix (str "RUNNING") s || hasInfix (str "postgresql") s) := by
      unfold scMatches
      rw [hq]
    refine ⟨?_, ?_, ?_⟩
    · intro hm
      rw [hm0] at hm
      rw [hcp, hm]
      simp
    · intro hm hdir
      rw [hm0] at hm
      rw [hcp, hm]
      simp only [Bool.false_eq_true, if_false]
      unfold windowsPathProbe
      rcases hpf : env.programFilesPgExists with _ | _
      · have hroot : env.pgRootExists = true := by
          rw [hpf] at hdir
          simpa using hdir
        simp [hroot]
      · simp
    · intro hm h1 h2
      rw [hm0] at hm
      rw [hcp, hm]
      simp only [Bool.false_eq_true, if_false]
      unfold windowsPathProbe
      simp [h1, h2]

/-- C5 amended witness: the stopped-service environment satisfies the
service-branch condition, so the chain's first case applies. -/
theorem checkPostgres_windows_fallback_chain_inst :
    checkPostgres stoppedServiceEnv = true :=
  (checkPostgres_windows_fallback_chain stoppedServiceEnv rfl).1 (by decide)

/-! ## Claim theorems (fourth group): the template renderer -/

theorem expandDollar_cons_ne (b m a : JStr) (c : Nat) (cs : JStr) (hc : c ≠ 36) :
    expandDollar b m a (c :: cs) = c :: expandDollar b m a cs := by
  cases cs with
  | nil => rfl
  | cons d rest =>
    rw [expandDollar, if_neg hc]

theorem expandDollar_verbatim (b m a v : JStr) (hv : (36 : Nat) ∉ v) :
    expandDollar b m a v = v := by
  induction v with
  | nil => rfl
  | cons c cs ih =>
    have hc : c ≠ 36 := fun h => hv (by simp [h])
    rw [expandDollar_cons_ne b m a c cs hc, ih (fun h => hv (List.mem_cons_of_mem _ h))]

theorem replaceAllGo_fuel (pat repl : JStr) :
    ∀ f1 f2 pre s, s.length ≤ f1 → s.length ≤ f2 →
      replaceAllGo pat repl f1 pre s = replaceAllGo pat repl f2 pre s := by
  intro f1
  induction f1 with
  | zero =>
    intro f2 pre s hs1 _
    have : s = [] := List.eq_nil_of_length_eq_zero (Nat.le_zero.mp hs1)
    subst this
    cases f2 <;> rfl
  | succ f ih =>
    intro f2 pre s hs1 hs2
    cases s with
    | nil => cases f2 <;> rfl
    | cons c cs =>
      cases f2 with
      | zero => simp at hs2
      | succ g =>
        simp only [replaceAllGo]
        by_cases h : pat.isPrefixOf (c :: cs) = true
        · rw [if_pos h, if_pos h]
          refine congrArg (expandDollar pre pat (cs.drop (pat.length - 1)) repl ++ ·)
            (ih g (pre ++ pat) _ ?_ ?_) <;>
            simp only [List.length_cons, List.length_drop] at hs1 hs2 ⊢ <;> omega
        · rw [if_neg h, if_neg h]
          refine congrArg (c :: ·) (ih g (pre ++ [c]) cs ?_ ?_) <;>
            simp only [List.length_cons] at hs1 hs2 <;> omega

theorem replaceAllAt_cons (pat repl pre : JStr) (c : Nat) (cs : JStr) :
    replaceAllAt pat repl pre (c :: cs) =
      if pat.isPrefixOf (c :: cs) then
        expandDollar pre pat (cs.drop (pat.length - 1)) repl ++
          replaceAllAt pat repl (pre ++ pat) (cs.drop (pat.length - 1))
      else c :: replaceAllAt pat repl (pre ++ [c]) cs := by
  show replaceAllGo pat repl (c :: cs).length pre (c :: cs) = _
  simp only [List.length_cons, replaceAllGo]
  by_cases h : pat.isPrefixOf (c :: cs) = true
  · rw [if_pos h, if_pos h]
    refine congrArg (expandDollar pre pat (cs.drop (pat.length - 1)) repl ++ ·)
      (replaceAllGo_fuel pat repl cs.length _ _ _ ?_ le_rfl)
    simp only [List.length_drop]
    omega
  · rw [if_neg h, if_neg h]
    rfl

theorem replaceAllAt_cons_ne (k v pre : JStr) (c : Nat) (cs : JStr) (hc : c ≠ 123) :
    replaceAllAt (keyToken k) v pre (c :: cs)
      = c :: replaceAllAt (keyToken k) v (pre ++ [c]) cs := by
  rw [replaceAllAt_cons]
  have hpf : (keyToken k).isPrefixOf (c :: cs) = false := by
    show (123 :: (123 :: (k ++ [125, 125]))).isPrefixOf (c :: cs) = false
    simp only [List.isPrefixOf, Bool.and_eq_false_iff]
    left
    simpa using fun h => hc h.symm
  rw [hpf]
  simp

theorem replaceAllAt_lit (k v s : JStr) :
    ∀ pre X, (123 : Nat) ∉ s →
      replaceAllAt (keyToken k) v pre (s ++ X)
        = s ++ replaceAllAt (keyToken k) v (pre ++ s) X := by
  induction s with
  | nil =>
    intro pre X _
    simp
  | cons c cs ih =>
    intro pre X hs
    have hc : c ≠ 123 := by
      intro h
      exact hs (by simp [h])
    rw [List.cons_append, replaceAllAt_cons_ne k v pre c _ hc,
      ih (pre ++ [c]) X (fun h => hs (List.mem_cons_of_mem _ h))]
    simp

theorem isPrefixOf_self_append (p r : JStr) : p.isPrefixOf (p ++ r) = true := by
  induction p with
  | nil => simp [List.isPrefixOf]
  | cons a as ih => simp [List.isPrefixOf, ih]

theorem keyToken_length (k : JStr) : (keyToken k).length = k.length + 4 := by
  simp [keyToken]

theorem plainKey_no_brace (k : JStr) (h : plainKey k) :
    (123 : Nat) ∉ k ∧ (125 : Nat) ∉ k := by
  constructor <;> intro hm
  · have hc := h _ hm
    unfold plainKeyChar at hc
    rcases hc with h1 | h1 | h1 | h1 <;> omega
  · have hc := h _ hm
    unfold plainKeyChar at hc
    rcases hc with h1 | h1 | h1 | h1 <;> omega

theorem replaceAllAt_token_self (k v pre X : JStr) (hv : (36 : Nat) ∉ v) :
    replaceAllAt (keyToken k) v pre (keyToken k ++ X)
      = v ++ replaceAllAt (keyToken k) v (pre ++ keyToken k) X := by
  have h1 : keyToken k ++ X = 123 :: ((123 :: (k ++ [125, 125])) ++ X) := by simp [keyToken]
  have hpf : (keyToken k).isPrefixOf (123 :: ((123 :: (k ++ [125, 125])) ++ X)) = true := by
    rw [← h1]
    exact isPrefixOf_self_append _ _
  have h2 : (keyToken k).length - 1 = (123 :: (k ++ [125, 125])).length := by
    rw [keyToken_length]
    simp
  rw [h1, replaceAllAt_cons, hpf]
  simp only [if_true]
  rw [h2, List.drop_left, expandDollar_verbatim _ _ _ v hv]

theorem isPrefixOf_key_close (k k2 Y : JStr) (hk : (125 : Nat) ∉ k) (hk2 : (125 : Nat) ∉ k2)
    (h : (k ++ [125, 125]).isPrefixOf (k2 ++ ([125, 125] ++ Y)) = true) : k = k2 := by
  induction k generalizing k2 with
  | nil =>
    cases k2 with
    | nil => rfl
    | cons d k2t =>
      exfalso
      simp only [List.nil_append, List.cons_append, List.isPrefixOf, Bool.and_eq_true,
        beq_iff_eq] at h
      exact hk2 (by simp [h.1])
  | cons a as ih =>
    cases k2 with
    | nil =>
      exfalso
      simp only [List.cons_append, List.nil_append, List.isPrefixOf, Bool.and_eq_true,
        beq_iff_eq] at h
      exact hk (by simp [h.1])
    | cons b k2t =>
      simp only [List.cons_append, List.isPrefixOf, Bool.and_eq_true, beq_iff_eq] at h
      have has : a = b := h.1
      have htail : as = k2t :=
        ih k2t (fun hm => hk (List.mem_cons_of_mem _ hm))
          (fun hm => hk2 (List.mem_cons_of_mem _ hm)) h.2
      rw [has, htail]

theorem isPrefixOf_token_token (k k2 X : JStr) (hk : (125 : Nat) ∉ k) (hk2 : (125 : Nat) ∉ k2)
    (h : (keyToken k).isPrefixOf (keyToken k2 ++ X) = true) : k = k2 := by
  apply isPrefixOf_key_close k k2 X hk hk2
  have hshape : keyToken k2 ++ X = 123 :: 123 :: (k2 ++ ([125, 125] ++ X)) := by
    simp [keyToken]
  rw [hshape] at h
  simpa only [keyToken, List.isPrefixOf, Bool.and_eq_true, beq_self_eq_true, true_and] using h

theorem replaceAllAt_token_other (k k2 v : JStr) (hne : k ≠ k2) (hk : (125 : Nat) ∉ k)
    (hk2a : (123 : Nat) ∉ k2) (hk2b : (125 : Nat) ∉ k2) (pre X : JStr) :
    replaceAllAt (keyToken k) v pre (keyToken k2 ++ X)
      = keyToken k2 ++ replaceAllAt (keyToken k) v (pre ++ keyToken k2) X := by
  have hpf0 : (keyToken k).isPrefixOf (keyToken k2 ++ X) = false := by
    cases hb : (keyToken k).isPrefixOf (keyToken k2 ++ X) with
    | false => rfl
    | true => exact absurd (isPrefixOf_token_token k k2 X hk hk2b hb) hne
  have hshape : keyToken k2 ++ X = 123 :: (123 :: (k2 ++ ([125, 125] ++ X))) := by
    simp [keyToken]
  have hpf1 : (keyToken k).isPrefixOf (123 :: (k2 ++ ([125, 125] ++ X))) = false := by
    show (123 :: (123 :: (k ++ [125, 125]))).isPrefixOf _ = false
    cases k2 with
    | nil => simp [List.isPrefixOf]
    | cons c k2t =>
      have hc : (123 : Nat) ≠ c := fun hcc => hk2a (by simp [← hcc])
      simp [List.isPrefixOf, hc]
  rw [hshape] at hpf0
  rw [hshape, replaceAllAt_cons, hpf0]
  simp only [Bool.false_eq_true, if_false]
  rw [replaceAllAt_cons, hpf1]
  simp only [Bool.false_eq_true, if_false]
  rw [replaceAllAt_lit k v k2 _ _ hk2a]
  have h125 : (125 : Nat) ≠ 123 := by omega
  simp only [List.cons_append, List.nil_append]
  rw [replaceAllAt_cons_ne k v _ 125 _ h125, replaceAllAt_cons_ne k v _ 125 _ h125]
  have hpre : ((((pre ++ [123]) ++ [123]) ++ k2) ++ [125]) ++ [125] = pre ++ keyToken k2 := by
    simp [keyToken]
  rw [hpre]
  simp [keyToken]

theorem replaceAllAt_flatten (k v : JStr) (hk : (123 : Nat) ∉ k ∧ (125 : Nat) ∉ k)
    (hv : (36 : Nat) ∉ v) (ts : List TemplateChunk) (hts : ∀ ch ∈ ts, chunkOk ch) :
    ∀ pre, replaceAllAt (keyToken k) v pre (flattenChunks ts)
      = flattenChunks (substOne k v ts) := by
  induction ts with
  | nil =>
    intro pre
    rfl
  | cons ch rest ih =>
    intro pre
    have hch := hts ch (by simp)
    have hrest : ∀ c ∈ rest, chunkOk c := fun c hc => hts c (by simp [hc])
    cases ch with
    | lit s =>
      show replaceAllAt (keyToken k) v pre (s ++ flattenChunks rest)
        = flattenChunks (TemplateChunk.lit s :: substOne k v rest)
      rw [replaceAllAt_lit k v s pre _ hch, ih hrest (pre ++ s)]
      rfl
    | key k2 =>
      have hbr2 := plainKey_no_brace k2 hch
      by_cases hkk : k2 = k
      · subst hkk
        show replaceAllAt (keyToken k2) v pre (keyToken k2 ++ flattenChunks rest)
          = flattenChunks (substOneChunk k2 v (TemplateChunk.key k2) :: substOne k2 v rest)
        rw [replaceAllAt_token_self k2 v pre _ hv, ih hrest (pre ++ keyToken k2),
          show substOneChunk k2 v (TemplateChunk.key k2) = TemplateChunk.lit v from by
            simp [substOneChunk]]
        rfl
      · show replaceAllAt (keyToken k) v pre (keyToken k2 ++ flattenChunks rest)
          = flattenChunks (substOneChunk k v (TemplateChunk.key k2) :: substOne k v rest)
        rw [replaceAllAt_token_other k k2 v (fun h => hkk h.symm) hk.2 hbr2.1 hbr2.2 pre _,
          ih hrest (pre ++ keyToken k2),
          show substOneChunk k v (TemplateChunk.key k2) = TemplateChunk.key k2 from by
            simp [substOneChunk, hkk]]
        rfl

theorem replaceAll_flatten (k v : JStr) (hk : (123 : Nat) ∉ k ∧ (125 : Nat) ∉ k)
    (hv : (36 : Nat) ∉ v) (ts : List TemplateChunk) (hts : ∀ ch ∈ ts, chunkOk ch) :
    replaceAll (keyToken k) v (flattenChunks ts) = flattenChunks (substOne k v ts) :=
  replaceAllAt_flatten k v hk hv ts hts []

theorem substitutedChunks_nil (ts : List TemplateChunk) : substitutedChunks [] ts = ts := by
  induction ts with
  | nil => rfl
  | cons ch rest ih =>
    cases ch with
    | lit s => simpa [substitutedChunks] using ih
    | key k2 => simpa [substitutedChunks, lookupValue] using ih

theorem substitutedChunks_substOne (k v : JStr) (rest : List (JStr × JStr))
    (ts : List TemplateChunk) :
    substitutedChunks rest (substOne k v ts) = substitutedChunks ((k, v) :: rest) ts := by
  unfold substitutedChunks substOne
  rw [List.map_map]
  apply List.map_congr_left
  intro ch hch
  cases ch with
  | lit s => rfl
  | key k2 =>
    by_cases h : k2 = k
    · subst h
      simp [substOneChunk, lookupValue]
    · simp [substOneChunk, lookupValue, h, Ne.symm h]

/-- C4 amended: on templates made of brace-free literal text interleaved with
well-formed tokens of word-character keys, and for maps with word-character
keys whose values contain neither an opening brace nor a dollar sign,
`processTemplate` is exactly the simultaneous substitution the specification
describes: every occurrence of each mapped token (global, not
first-match-only) becomes that key's value, tokens of absent keys stay
literal, and unused map keys have no effect.  Without the brace restriction
on values the passes chain (see the counterexample), and without the dollar
restriction the replacement expands substitution patterns instead of
inserting the value verbatim (see the dollar-pattern theorems). -/
theorem processTemplate_simultaneous (ts : List TemplateChunk) (m : List (JStr × JStr))
    (hts : ∀ ch ∈ ts, chunkOk ch) (hm : ∀ kv ∈ m, entryOk kv) :
    processTemplate (flattenChunks ts) m = flattenChunks (substitutedChunks m ts) := by
  induction m generalizing ts with
  | nil =>
    rw [substitutedChunks_nil]
    rfl
  | cons kv rest ih =>
    obtain ⟨k, v⟩ := kv
    have hkv := hm (k, v) (by simp)
    have hrest : ∀ q ∈ rest, entryOk q := fun q hq => hm q (by simp [hq])
    have hstep : processTemplate (flattenChunks ts) ((k, v) :: rest)
        = processTemplate (replaceAll (keyToken k) v (flattenChunks ts)) rest := rfl
    have hts2 : ∀ ch ∈ substOne k v ts, chunkOk ch := by
      intro ch hch
      obtain ⟨ch0, hch0, rfl⟩ := List.mem_map.mp hch
      cases ch0 with
      | lit s => exact hts _ hch0
      | key k2 =>
        by_cases h : k2 = k
        · subst h
          rw [show substOneChunk k2 v (TemplateChunk.key k2) = TemplateChunk.lit v from by
            simp [substOneChunk]]
          exact hkv.2.1
        · rw [show substOneChunk k v (TemplateChunk.key k2) = TemplateChunk.key k2 from by
            simp [substOneChunk, h]]
          exact hts _ hch0
    rw [hstep, replaceAll_flatten k v (plainKey_no_brace k hkv.1) hkv.2.2 ts hts,
      ih (substOne k v ts) hts2 hrest, substitutedChunks_substOne]

/-- GetSubstitution fidelity: a dollar-ampersand pattern (36,38) in a
replacement value inserts the matched token, not the verbatim value — on the
template of `A` the map entry `A` to the text `y$&z` renders to `y`, the
token of `A`, `z`.  This is why the amended simultaneity statement excludes
dollars from values. -/
theorem processTemplate_dollar_match_inserted :
    processTemplate (flattenChunks chainTemplate) [(str "A", str "y$&z")]
      = str "y" ++ keyToken (str "A") ++ str "z" := by
  decide

/-- GetSubstitution fidelity: with the dollar-quote value (insert the part of
the subject after the match) for `A` and the dollar-backquote value (insert
the part before the match) for `B`, the two entry orders render the
two-token template differently, exactly as the real replacement semantics
does.  This is why the amended order-independence statement excludes dollars
from values. -/
theorem processTemplate_dollar_order_dependent :
    processTemplate (flattenChunks dollarTemplate) dollarMapAB = keyToken (str "B") ∧
    processTemplate (flattenChunks dollarTemplate) dollarMapBA = keyToken (str "A") ∧
    processTemplate (flattenChunks dollarTemplate) dollarMapAB ≠
      processTemplate (flattenChunks dollarTemplate) dollarMapBA := by
  decide

/-- C4 counterexample: the map sends `A` to the token of `B` and `B` to `x`;
on the one-token template for `A` the code substitutes sequentially and
produces `x`, while the claimed simultaneous reading (every mapped template
token becomes its value, nothing else changes) produces the token of `B` —
the two disagree. -/
theorem processTemplate_chained_value_cex :
    processTemplate (flattenChunks chainTemplate) chainMapAB = str "x" ∧
    flattenChunks (substitutedChunks chainMapAB chainTemplate) = keyToken (str "B") ∧
    processTemplate (flattenChunks chainTemplate) chainMapAB ≠
      flattenChunks (substitutedChunks chainMapAB chainTemplate) := by
  decide

/-- C4 amended witness: on a template and map in the amended domain
(word-character keys, brace- and dollar-free values) the fold and the
simultaneous substitution agree; the instance exercises a repeated token, an
absent key left literal, and an unused map entry. -/
theorem processTemplate_simultaneous_inst :
    processTemplate (flattenChunks demoTemplate) demoMap =
      flattenChunks (substitutedChunks demoMap demoTemplate) :=
  processTemplate_simultaneous demoTemplate demoMap (by decide) (by decide)

theorem lookupValue_perm (m1 m2 : List (JStr × JStr)) (hp : List.Perm m1 m2)
    (hnd : (m1.map Prod.fst).Nodup) (k : JStr) : lookupValue m1 k = lookupValue m2 k := by
  induction hp with
  | nil => rfl
  | cons x h ih =>
    obtain ⟨a, b⟩ := x
    have hnd2 := hnd
    rw [List.map_cons] at hnd2
    have hnd' := (List.nodup_cons.mp hnd2).2
    by_cases hx : a = k <;> simp [lookupValue, hx, ih hnd']
  | swap x y l =>
    obtain ⟨a, b⟩ := x
    obtain ⟨c, d⟩ := y
    have hca : c ≠ a := by
      rw [List.map_cons, List.map_cons] at hnd
      have h0 := (List.nodup_cons.mp hnd).1
      intro h
      exact h0 (by simp [h])
    by_cases hc : c = k <;> by_cases ha : a = k
    · exact absurd (hc.trans ha.symm) hca
    · simp [lookupValue, hc, ha]
    · simp [lookupValue, hc, ha]
    · simp [lookupValue, hc, ha]
  | trans h1 h2 ih1 ih2 =>
    have hnd2 := (h1.map Prod.fst).nodup hnd
    rw [ih1 hnd, ih2 hnd2]

/-- C9 amended: on templates of brace-free literal text interleaved with
well-formed tokens of word-character keys, and for maps with pairwise
distinct word-character keys whose values contain neither an opening brace
nor a dollar sign, the rendered output does not depend on the order of the
map entries: any permutation of the entries yields the same output.  Without
the brace restriction the entry order is observable (see the
counterexample), and so is it without the dollar restriction (see the
dollar-pattern order-dependence theorem). -/
theorem processTemplate_perm_invariant (ts : List TemplateChunk) (m1 m2 : List (JStr × JStr))
    (hts : ∀ ch ∈ ts, chunkOk ch) (hm : ∀ kv ∈ m1, entryOk kv)
    (hp : List.Perm m1 m2) (hnd : (m1.map Prod.fst).Nodup) :
    processTemplate (flattenChunks ts) m1 = processTemplate (flattenChunks ts) m2 := by
  have hm2 : ∀ kv ∈ m2, entryOk kv := fun q hq => hm q (hp.symm.subset hq)
  rw [processTemplate_simultaneous ts m1 hts hm, processTemplate_simultaneous ts m2 hts hm2]
  have hsub : substitutedChunks m1 ts = substitutedChunks m2 ts := by
    unfold substitutedChunks
    apply List.map_congr_left
    intro ch hch
    cases ch with
    | lit s => rfl
    | key k2 =>
      show (match lookupValue m1 k2 with
            | some v => TemplateChunk.lit v
            | none => TemplateChunk.key k2)
          = (match lookupValue m2 k2 with
            | some v => TemplateChunk.lit v
            | none => TemplateChunk.key k2)
      rw [lookupValue_perm m1 m2 hp hnd k2]
  rw [hsub]

/-- C9 counterexample: the two orderings of the same two-entry map (distinct
keys) render the one-token template differently — `x` for the order
`A, B` and the token of `B` for the order `B, A` — so rendering is not
order-independent on all maps. -/
theorem processTemplate_order_cex :
    List.Perm chainMapAB chainMapBA ∧
    (chainMapAB.map Prod.fst).Nodup ∧
    processTemplate (flattenChunks chainTemplate) chainMapAB ≠
      processTemplate (flattenChunks chainTemplate) chainMapBA := by
  decide

/-- C9 amended witness: the demo map and its reversal render the demo
template identically. -/
theorem processTemplate_perm_invariant_inst :
    processTemplate (flattenChunks demoTemplate) demoMap =
      processTemplate (flattenChunks demoTemplate) demoMapRev :=
  processTemplate_perm_invariant demoTemplate demoMap demoMapRev
    (by decide) (by decide) (by decide) (by decide)
